import Mathlib

set_option maxHeartbeats 1000000

/-
Verification of the roam-export pipeline (src/roam-export/src/main.rs and
src/roam-export/src/markdown.rs) against its natural-language specification.

The embedding models the two traversers (`IdTraversal` and `MarkdownExport`)
as fold functions over a stream of traversal events.  The stream of events is
the interface provided by the external parsing library (orgize): a parsed
document is represented here directly by the list of events its traversal
emits.  Containers for which the renderer always calls `ctx.skip()`
(keywords, property drawers, resolved links, tables) appear as single atomic
events carrying their raw contents, since their children are never visited
and their Leave events are suppressed.  Panics (`unwrap`/`expect`) are
modelled with `Except.error`.  The external `uuid` and `slug` crates and the
path functions `file_stem`/`with_extension` are modelled from their
documented behaviour (they are out-of-scope collaborators in the spec).
-/

namespace RoamExport

/-! ## String helpers mirroring the Rust `str` methods used by the sources -/

/-- Model of Rust `str::starts_with`. -/
def strStartsWith (s p : String) : Bool := p.data.isPrefixOf s.data

/-- Model of Rust `str::trim` (drop whitespace from both ends). -/
def strTrim (s : String) : String :=
  String.mk (((s.data.dropWhile Char.isWhitespace).reverse.dropWhile Char.isWhitespace).reverse)

/-- Split a character list at the first occurrence of a character. -/
def splitOnceCh : List Char → Char → Option (List Char × List Char)
  | [], _ => none
  | c :: cs, t =>
    if c = t then some ([], cs)
    else
      match splitOnceCh cs t with
      | none => none
      | some ab => some (c :: ab.1, ab.2)

/-- Model of Rust `str::split_once`. -/
def splitOnceStr (s : String) (c : Char) : Option (String × String) :=
  match splitOnceCh s.data c with
  | none => none
  | some ab => some (String.mk ab.1, String.mk ab.2)

/-- Fuel-bounded repeated prefix stripping; the fuel is the string length,
enough because each round removes at least one character. -/
def stripAllAux : Nat → List Char → List Char → List Char
  | 0, _, s => s
  | n + 1, p, s =>
    if p.isPrefixOf s && !p.isEmpty then stripAllAux n p (s.drop p.length) else s

/-- Model of Rust `str::trim_start_matches`: remove every leading repetition
of the pattern. -/
def trimStartMatches (s p : String) : String :=
  String.mk (stripAllAux s.data.length p.data s.data)

/-- Helper for `strSplitCh`: accumulate the current field (reversed). -/
def splitChAux (t : Char) : List Char → List Char → List (List Char)
  | acc, [] => [acc.reverse]
  | acc, c :: cs =>
    if c = t then acc.reverse :: splitChAux t [] cs else splitChAux t (c :: acc) cs

/-- Model of Rust `str::split(c)`: split at every occurrence, keeping empty
fields. -/
def strSplitCh (s : String) (t : Char) : List String :=
  (splitChAux t [] s.data).map String.mk

/-- Model of Rust byte slicing `&s[n..]` for ASCII prefixes. -/
def strDropN (s : String) (n : Nat) : String := String.mk (s.data.drop n)

/-- Model of Rust `"#".repeat(n)`-style repetition. -/
def repChar (n : Nat) (c : Char) : String := String.mk (List.replicate n c)

/-- Substring test on character lists (needle occurs contiguously in hay). -/
def substrAux (n : List Char) : List Char → Bool
  | [] => n.isEmpty
  | c :: cs => n.isPrefixOf (c :: cs) || substrAux n cs

/-- Substring test on strings. -/
def substrStr (needle hay : String) : Bool := substrAux needle.data hay.data

/-- ASCII lower-casing of a character. -/
def charLower (c : Char) : Char :=
  if 'A' ≤ c && c ≤ 'Z' then Char.ofNat (c.toNat + 32) else c

/-- ASCII lower-casing of a string. -/
def strToLower (s : String) : String := String.mk (s.data.map charLower)

/-! ## The external `uuid` crate, modelled -/

/-- Hexadecimal digit test. -/
def hexDigit (c : Char) : Bool :=
  c.isDigit || ('a' ≤ c && c ≤ 'f') || ('A' ≤ c && c ≤ 'F')

/-- Syntactic validity of the canonical hyphenated 8-4-4-4-12 UUID form. -/
def isUuidStr (s : String) : Bool :=
  s.data.length == 36 &&
    (List.range 36).all (fun i =>
      if i == 8 || i == 13 || i == 18 || i == 23 then s.data.getD i ' ' == '-'
      else hexDigit (s.data.getD i ' '))

/-- A parsed identifier.  The stored string is the canonical lowercase
hyphenated form, which is also what the `Display` instance prints. -/
structure Uuid where
  val : String
deriving DecidableEq, Repr

/-- Modelled from the spec: `Uuid::from_str` of the external uuid crate
(an out-of-scope collaborator), restricted to the canonical hyphenated form
used by org-roam identifiers; parsing normalises to lowercase. -/
def Uuid.fromStr (s : String) : Option Uuid :=
  if isUuidStr s then some ⟨strToLower s⟩ else none

/-! ## The external `slug` crate and path functions, modelled -/

/-- Collapse runs of dashes and drop trailing dashes. -/
def collapseDashes : List Char → List Char
  | [] => []
  | c :: cs =>
    let rest := collapseDashes cs
    if c = '-' then
      match rest with
      | [] => []
      | d :: ds => if d = '-' then d :: ds else '-' :: d :: ds
    else c :: rest

/-- Modelled from the spec: `slug::slugify` of the external slug crate —
lowercase alphanumeric characters kept, every other character becomes a
dash, runs of dashes collapsed, leading/trailing dashes dropped (ASCII
fragment). -/
def slugify (s : String) : String :=
  String.mk
    ((collapseDashes (s.data.map (fun c => if c.isAlphanum then charLower c else '-'))).dropWhile
      (fun c => c = '-'))

/-- Final path component of a slash-separated path. -/
def baseName (p : String) : String :=
  match (strSplitCh p '/').getLast? with
  | some b => b
  | none => p

/-- Modelled from the spec: Rust `Path::file_stem` on a base name — the part
before the last dot, the whole name when there is no dot or the dot is the
first character. -/
def stemOf (b : String) : String :=
  match splitOnceCh b.data.reverse '.' with
  | some er => if er.2.isEmpty then b else String.mk er.2.reverse
  | none => b

/-- Rust `path.file_stem()` for a full path. -/
def fileStem (p : String) : String := stemOf (baseName p)

/-- Rust `Path::with_extension("org")` on a base name: replace the last
extension (or append when there is none). -/
def withExtOrg (b : String) : String := stemOf b ++ ".org"

/-! ## Data model: headlines, links, traversal events -/

/-- The data of an orgize `Headline` node used by the two traversers:
`level()`, `title_raw()`, `tags()`, the raw lines of its property drawer
(`properties()`), and `text_range()` (used as the identity of the node). -/
structure Headline where
  level : Nat
  titleRaw : String
  tags : List String
  properties : List String
  range : Nat × Nat
deriving DecidableEq, Repr

/-- The data of an orgize `Link` node used by the renderer: `path()`,
`has_description()`, `description_raw()`, `is_image()`. -/
structure Link where
  path : String
  hasDescription : Bool
  descriptionRaw : String
  isImage : Bool
deriving DecidableEq, Repr

/-- A traversal event, as produced by `Org::traverse`.  Containers that the
renderer always skips (keywords, property drawers, links without visited
children) appear as atomic events carrying their raw contents. -/
inductive Ev where
  | enterDocument
  | leaveDocument
  | enterSection
  | leaveSection
  | enterParagraph
  | leaveParagraph
  | enterHeadline (h : Headline)
  | leaveHeadline (h : Headline)
  | keyword (raw : String)
  | propertyDrawer (props : List String)
  | text (s : String)
  | enterQuoteBlock
  | leaveQuoteBlock
  | enterLink (l : Link)
  | leaveLink (l : Link)
  | rule
deriving DecidableEq, Repr

/-- The tag marking nodes for export (`EXPORT_TAG` in main.rs). -/
def EXPORT_TAG : String := "export"

/-! ## Association lists standing in for `HashMap` -/

/-- Lookup in an association list (model of `HashMap::get`). -/
def alookup {α β : Type} [DecidableEq α] : List (α × β) → α → Option β
  | [], _ => none
  | kv :: rest, a => if kv.1 = a then some kv.2 else alookup rest a

/-- Insert-or-replace (model of `HashMap::insert` / collect semantics where
a later binding for the same key wins). -/
def ainsert {α β : Type} [DecidableEq α] : List (α × β) → α → β → List (α × β)
  | [], k, v => [(k, v)]
  | kv :: rest, k, v => if kv.1 = k then (k, v) :: rest else kv :: ainsert rest k v

/-! ## The renderer state (markdown.rs, `MarkdownExport`) -/

/-- markdown.rs `ExportContext`: a currently open output target. -/
inductive ExportContext where
  | file
  | headline (h : Headline)
deriving DecidableEq, Repr

/-- The anchor depth of a context: 0 for the File context, the headline
level for a Section context (the `offset` computed in markdown.rs). -/
def ctxLevel : ExportContext → Nat
  | .file => 0
  | .headline h => h.level

/-- Is the context the File context? -/
def isFileCtx : ExportContext → Bool
  | .file => true
  | .headline _ => false

/-- markdown.rs `MarkdownExport`.  `outputStack` is the context stack with
the head of the list as the top of the stack (the end of the Rust `Vec`);
`finishedOutputs` is in push order. -/
structure MDState where
  thisFile : String
  nodeMap : List (Uuid × String)
  headlineMap : List ((String × Nat × Nat) × String)
  fileFrontMatter : List (String × String)
  enteredHeadline : Bool
  outputStack : List (ExportContext × String)
  finishedOutputs : List (ExportContext × String)
  insideBlockquote : Bool
deriving Repr

/-- `MarkdownExport::new`. -/
def mdInit (thisFile : String) (nm : List (Uuid × String))
    (hm : List ((String × Nat × Nat) × String)) : MDState :=
  { thisFile := thisFile, nodeMap := nm, headlineMap := hm,
    fileFrontMatter := [], enteredHeadline := false, outputStack := [],
    finishedOutputs := [], insideBlockquote := false }

/-- The whitespace policy: before a block construct, make sure the buffer
ends in a newline (markdown.rs `if !output.is_empty() && !output.ends_with(..)`). -/
def ensureNl (out : String) : String :=
  if !out.data.isEmpty &&
      !(match out.data.getLast? with
        | some c => c = '\n' || c = '\r'
        | none => false) then
    out ++ "\n"
  else out

/-- The `Event::Text` branch: inside a blockquote each continuation line is
re-prefixed, otherwise the text is appended as is. -/
def appendTextStr (insideBq : Bool) (out txt : String) : String :=
  if insideBq then
    match strSplitCh txt '\n' with
    | [] => out
    | l0 :: rest => (rest.foldl (fun acc l => acc ++ "\n>  " ++ l) (out ++ l0))
  else out ++ txt

/-- Modify the buffer on top of the stack, when a context is open
(the `if let Some((ex_ctx, output)) = self.output_stack.last_mut()` guard). -/
def bufOnTop (s : MDState) (f : String → String) : MDState :=
  match s.outputStack with
  | [] => s
  | co :: rest => { s with outputStack := (co.1, f co.2) :: rest }

/-- The pop loop at the start of the `Enter(Headline)` branch
(markdown.rs lines 140-159): pop Section contexts whose level is ≥ the new
headline level, stopping at the File context or a shallower Section.
Returns the finalized contexts (in pop order) and the remaining stack. -/
def popCtxs (lvl : Nat) : List (ExportContext × String) →
    List (ExportContext × String) × List (ExportContext × String)
  | [] => ([], [])
  | (c, res) :: rest =>
    match c with
    | .file => ([], (ExportContext.file, res) :: rest)
    | .headline sh =>
      if lvl ≤ sh.level then
        ((ExportContext.headline sh, res) :: (popCtxs lvl rest).1, (popCtxs lvl rest).2)
      else ([], (ExportContext.headline sh, res) :: rest)

/-- Does a `#+filetags` keyword carry the export tag
(`for tag in all_tags.trim().split(':') { if tag == EXPORT_TAG ... }`)? -/
def tagsHaveExport (allTags : String) : Bool :=
  (strSplitCh (strTrim allTags) ':').any (fun t => t = EXPORT_TAG)

/-- Does this keyword event push a File context? -/
def keywordPushesFile (raw : String) : Bool :=
  strStartsWith raw "#+filetags" &&
    (match splitOnceStr raw ':' with
     | none => false
     | some kv => tagsHaveExport kv.2)

/-- The `Enter(Keyword)` branch (markdown.rs lines 91-117). -/
def stepKeyword (s : MDState) (raw : String) : Except String MDState :=
  if strStartsWith raw "#+filetags" then
    match splitOnceStr raw ':' with
    | none => Except.error "unwrap: keyword without colon"
    | some kv =>
      if tagsHaveExport kv.2 then
        Except.ok { s with outputStack := (ExportContext.file, "") :: s.outputStack }
      else Except.ok s
  else
    match splitOnceStr (trimStartMatches raw "#+") ':' with
    | none => Except.error "unwrap: keyword without colon"
    | some kv =>
      Except.ok { s with fileFrontMatter := s.fileFrontMatter ++ [(kv.1, strTrim kv.2)] }

/-- Parse the raw property lines of a file-level drawer into front-matter
entries (markdown.rs lines 124-131); `none` models the `unwrap` panic. -/
def drawerEntries (props : List String) : Option (List (String × String)) :=
  props.mapM (fun raw =>
    match splitOnceStr (trimStartMatches raw ":") ':' with
    | none => none
    | some kv => some (kv.1, strTrim kv.2))

/-- The `Enter(PropertyDrawer)` branch (markdown.rs lines 118-134). -/
def stepDrawer (s : MDState) (props : List String) : Except String MDState :=
  if s.enteredHeadline then Except.ok s
  else
    match drawerEntries props with
    | none => Except.error "unwrap: property without colon"
    | some entries => Except.ok { s with fileFrontMatter := s.fileFrontMatter ++ entries }

/-- One rendered property line of a headline preamble
(`raw[1..].split_once(':')`, markdown.rs line 184); `none` models the
`unwrap`/slicing panics. -/
def headlinePropLine (raw : String) : Option String :=
  match raw.data with
  | [] => none
  | _ :: tl =>
    match splitOnceCh tl ':' with
    | none => none
    | some kv => some (String.mk kv.1 ++ ": " ++ strTrim (String.mk kv.2) ++ "\n")

/-- The front-matter preamble of a freshly exported headline
(markdown.rs lines 174-191). -/
def headlinePreamble (h : Headline) : Option String :=
  match h.properties.mapM headlinePropLine with
  | none => none
  | some propLines =>
    some (("---\ntitle: " ++ h.titleRaw) ++ ("\n" ++ (String.join propLines ++ "---\n\n")))

/-- Rendering of a non-anchor headline into the open context
(markdown.rs lines 212-230): ensure a newline, emit the renormalized
heading marker, then the title through the text branch. -/
def headingRender (c : ExportContext) (out : String) (bq : Bool) (h : Headline) : String :=
  appendTextStr bq (ensureNl out ++ (repChar (min (h.level - ctxLevel c) 6) '#' ++ " "))
    h.titleRaw

/-- The `Enter(Headline)` branch (markdown.rs lines 135-198 and 212-230). -/
def stepHeadline (s : MDState) (h : Headline) : Except String MDState :=
  let p := popCtxs h.level s.outputStack
  let s1 : MDState :=
    { s with enteredHeadline := true, outputStack := p.2,
             finishedOutputs := s.finishedOutputs ++ p.1 }
  if h.tags.contains EXPORT_TAG then
    let st2 :=
      match s1.outputStack with
      | [] => []
      | (c, out) :: rest =>
        (c, out ++
            (match alookup s1.headlineMap (s1.thisFile, h.range.1, h.range.2) with
             | some fname => "![[" ++ fname ++ "]]\n\n"
             | none => "exported headline " ++ h.titleRaw ++ " with no id")) :: rest
    match headlinePreamble h with
    | none => Except.error "unwrap: malformed headline property"
    | some pre => Except.ok { s1 with outputStack := (ExportContext.headline h, pre) :: st2 }
  else
    match s1.outputStack with
    | [] => Except.ok s1
    | (c, out) :: rest =>
      Except.ok
        { s1 with outputStack := (c, headingRender c out s1.insideBlockquote h) :: rest }

/-- The text appended to the open buffer by the `Enter(Link)` branch
(markdown.rs lines 320-359); `none` models the `expect("invalid id")` panic. -/
def linkText (nm : List (Uuid × String)) (l : Link) (out : String) : Option String :=
  if strStartsWith l.path "id:" then
    match Uuid.fromStr (trimStartMatches l.path "id:") with
    | none => none
    | some u =>
      match alookup nm u with
      | some fname =>
        if l.hasDescription then
          some (out ++ ("[[" ++ fname ++ "][" ++ l.descriptionRaw ++ "]]"))
        else some (out ++ ("[[" ++ fname ++ "]]"))
      | none => some (out ++ ("link to non-existent uuid " ++ u.val))
  else
    if l.isImage then
      some (out ++ ("![](" ++ trimStartMatches l.path "file:" ++ ")"))
    else if !l.hasDescription then
      some (out ++
        ("[" ++ trimStartMatches l.path "file:" ++ "](" ++ trimStartMatches l.path "file:" ++ ")"))
    else some (out ++ "[")

/-- The `Enter(Link)` branch (markdown.rs lines 320-359): only acts when a
context is open; a malformed identifier link panics. -/
def stepLink (s : MDState) (l : Link) : Except String MDState :=
  match s.outputStack with
  | [] => Except.ok s
  | (c, out) :: rest =>
    match linkText s.nodeMap l out with
    | none => Except.error "invalid id"
    | some out2 => Except.ok { s with outputStack := (c, out2) :: rest }

/-- The `Enter(QuoteBlock)` branch (markdown.rs lines 271-277). -/
def stepQuoteEnter (s : MDState) : MDState :=
  match s.outputStack with
  | [] => s
  | (c, out) :: rest =>
    { s with insideBlockquote := true, outputStack := (c, ensureNl out ++ "> ") :: rest }

/-- The `Leave(QuoteBlock)` branch (markdown.rs line 278). -/
def stepQuoteLeave (s : MDState) : MDState :=
  match s.outputStack with
  | [] => s
  | _ :: _ => { s with insideBlockquote := false }

/-- One traversal event of `MarkdownExport` (`Traverser::event`). -/
def mdStep (s : MDState) (e : Ev) : Except String MDState :=
  match e with
  | .keyword raw => stepKeyword s raw
  | .propertyDrawer props => stepDrawer s props
  | .enterHeadline h => stepHeadline s h
  | .leaveHeadline _ => Except.ok s
  | .enterDocument => Except.ok s
  | .leaveDocument => Except.ok s
  | .leaveSection => Except.ok s
  | .enterParagraph => Except.ok s
  | .enterSection => Except.ok (bufOnTop s ensureNl)
  | .leaveParagraph => Except.ok (bufOnTop s (fun out => out ++ "\n"))
  | .text t => Except.ok (bufOnTop s (fun out => appendTextStr s.insideBlockquote out t))
  | .rule => Except.ok (bufOnTop s (fun out => out ++ "\n-----\n"))
  | .enterQuoteBlock => Except.ok (stepQuoteEnter s)
  | .leaveQuoteBlock => Except.ok (stepQuoteLeave s)
  | .enterLink l => stepLink s l
  | .leaveLink l => Except.ok (bufOnTop s (fun out => out ++ ("](" ++ l.path ++ ")")))

/-- The file-level front-matter preamble built in `MarkdownExport::finish`
(markdown.rs lines 74-78).  Note: the code appends each entry WITHOUT a
trailing newline (`format!("{k}: {v}")`). -/
def filePreamble (fm : List (String × String)) : String :=
  "---\n" ++ (String.join (fm.map (fun kv => kv.1 ++ ": " ++ kv.2)) ++ "---\n\n")

/-- Prepend the file preamble when the LAST finished output is the File
context (markdown.rs lines 73-81). -/
def setFilePreamble (fm : List (String × String)) :
    List (ExportContext × String) → List (ExportContext × String)
  | [] => []
  | [co] =>
    match co.1 with
    | .file => [(ExportContext.file, filePreamble fm ++ co.2)]
    | .headline h => [(ExportContext.headline h, co.2)]
  | co :: co2 :: rest => co :: setFilePreamble fm (co2 :: rest)

/-- `MarkdownExport::finish`: drain the stack (top first) into the finished
outputs, then add the file front matter. -/
def mdFinish (s : MDState) : List (ExportContext × String) :=
  setFilePreamble s.fileFrontMatter (s.finishedOutputs ++ s.outputStack)

/-- Run the renderer over one parsed document. -/
def runDoc (thisFile : String) (nm : List (Uuid × String))
    (hm : List ((String × Nat × Nat) × String)) (evs : List Ev) :
    Except String (List (ExportContext × String)) :=
  (evs.foldlM mdStep (mdInit thisFile nm hm)).map mdFinish

/-! ## Pass 1: the identifier indexer (main.rs, `IdTraversal`) -/

/-- main.rs `IdTraversal`. -/
structure IdState where
  fileUuid : Option Uuid
  headlineUuids : List (Uuid × Headline)
  enteredHeadline : Bool
deriving Repr

/-- `IdTraversal::default`. -/
def idInit : IdState := ⟨none, [], false⟩

/-- One traversal event of `IdTraversal` (main.rs lines 245-284). -/
def idStep (s : IdState) (e : Ev) : Except String IdState :=
  match e with
  | .propertyDrawer props =>
    if s.enteredHeadline then Except.ok s
    else
      match props.find? (fun r => strStartsWith r ":ID:") with
      | none => Except.ok s
      | some raw =>
        let id := strTrim (strDropN raw 4)
        match Uuid.fromStr id with
        | none => Except.error ("invalid uuid " ++ id ++ " for file")
        | some u => Except.ok { s with fileUuid := some u }
  | .enterHeadline h =>
    let s1 : IdState := { s with enteredHeadline := true }
    match h.properties.find? (fun r => strStartsWith r ":ID:") with
    | none => Except.ok s1
    | some raw =>
      let id := strTrim (strDropN raw 4)
      match Uuid.fromStr id with
      | none => Except.error ("invalid uuid " ++ id ++ " for headline " ++ h.titleRaw)
      | some u => Except.ok { s1 with headlineUuids := ainsert s1.headlineUuids u h }
  | _ => Except.ok s

/-- main.rs `Node`: an ID names either a whole file or a headline. -/
inductive Node where
  | file (path : String)
  | headline (path : String) (title : String) (range : Nat × Nat)
deriving DecidableEq, Repr

/-- The (Uuid, Node) pairs contributed by one document (main.rs 80-96).
The parallel collection of the Rust code is determinized here to document
order with the file node first. -/
def docNodes (path : String) (evs : List Ev) : Except String (List (Uuid × Node)) :=
  (evs.foldlM idStep idInit).map (fun t =>
    (match t.fileUuid with
     | some fu => [(fu, Node.file path)]
     | none => []) ++
    t.headlineUuids.map (fun uh => (uh.1, Node.headline path uh.2.titleRaw uh.2.range)))

/-- All (Uuid, Node) pairs of the corpus (Pass 1). -/
def corpusNodes (docs : List (String × List Ev)) : Except String (List (Uuid × Node)) :=
  docs.foldlM (fun acc d => (docNodes d.1 d.2).map (fun ns => acc ++ ns)) []

/-- The filename slug of a node (main.rs 106-111). -/
def nodeFilename : Node → String
  | .file p => fileStem p
  | .headline _ title _ => slugify title

/-- The id→filename table (main.rs 102-115); a `HashMap` collect, so a later
binding for a duplicated identifier silently replaces an earlier one. -/
def buildFilenames (nodes : List (Uuid × Node)) : List (Uuid × String) :=
  nodes.foldl (fun m un => ainsert m un.1 (nodeFilename un.2)) []

/-- The (path, range)→filename table (main.rs 117-126). -/
def buildHeadlineNames (nodes : List (Uuid × Node)) :
    List ((String × Nat × Nat) × String) :=
  nodes.foldl (fun m un =>
    match un.2 with
    | .file _ => m
    | .headline p t r => ainsert m (p, r.1, r.2) (slugify t ++ ".org")) []

/-- The path→file-slug table (main.rs 128-138). -/
def buildFileNodeNames (nodes : List (Uuid × Node)) : List (String × String) :=
  nodes.foldl (fun m un =>
    match un.2 with
    | .file p => ainsert m p (fileStem p)
    | .headline _ _ _ => m) []

/-- Pass 2 for one document: render, then resolve each finished context to
its output filename (main.rs 159-221); contexts without a filename are
skipped with a warning. -/
def docOutputs (path : String) (fns : List (Uuid × String))
    (hns : List ((String × Nat × Nat) × String)) (fnn : List (String × String))
    (evs : List Ev) : Except String (List (String × String)) :=
  (runDoc path fns hns evs).map (fun outs =>
    outs.filterMap (fun co =>
      match co.1 with
      | .file =>
        match alookup fnn path with
        | some fname => some (withExtOrg fname, co.2)
        | none => none
      | .headline h =>
        match alookup hns (path, h.range.1, h.range.2) with
        | some fname => some (withExtOrg fname, co.2)
        | none => none))

/-- The whole two-pass pipeline (`main`), determinized to document order:
index the corpus, build the three tables, then render every document. -/
def runCorpus (docs : List (String × List Ev)) :
    Except String (List (String × String)) :=
  match corpusNodes docs with
  | Except.error e => Except.error e
  | Except.ok nodes =>
    let fns := buildFilenames nodes
    let hns := buildHeadlineNames nodes
    let fnn := buildFileNodeNames nodes
    docs.foldlM (fun acc d => (docOutputs d.1 fns hns fnn d.2).map (fun os => acc ++ os)) []

/-! ## Well-formedness of the context stack and of documents -/

/-- The stack invariant stated by the spec, on the list of contexts with the
head of the list as the TOP of the stack: every non-bottom element is a
Section context whose anchor level strictly exceeds the level of the context
below it; the File context (level 0) can only sit at the bottom. -/
def stackShapeWF : List ExportContext → Bool
  | [] => true
  | [_] => true
  | c1 :: c2 :: rest =>
    (match c1 with
     | .file => false
     | .headline h => decide (ctxLevel c2 < h.level)) && stackShapeWF (c2 :: rest)

/-- Is the event a `#+filetags` keyword carrying the export tag? -/
def isFiletagsExport : Ev → Bool
  | .keyword raw => keywordPushesFile raw
  | _ => false

/-- Is the event the entry of an export-tagged headline? -/
def isExportHeadline : Ev → Bool
  | .enterHeadline h => h.tags.contains EXPORT_TAG
  | _ => false

/-- Does the stream contain a filetags-export keyword? -/
def hasFE (evs : List Ev) : Bool := evs.any isFiletagsExport

/-- Ordering discipline of a realistic document: a filetags-export keyword
(if any) is unique and precedes every export-tagged headline. -/
def goodDoc : List Ev → Bool
  | [] => true
  | e :: rest =>
    ((!isFiletagsExport e && !isExportHeadline e) || !hasFE rest) && goodDoc rest

/-- All headline levels are at least 1 (true of every parsed org headline). -/
def levelsOK (evs : List Ev) : Bool :=
  evs.all (fun e =>
    match e with
    | .enterHeadline h => decide (1 ≤ h.level)
    | _ => true)

/-- A well-formed document stream. -/
def goodDocFull (evs : List Ev) : Bool := goodDoc evs && levelsOK evs

/-! ## Concrete corpora used by the claims -/

/-- Identifier used as file id of the duplicate-id corpus and of the
end-to-end example. -/
def uA : String := "aaaaaaaa-aaaa-aaaa-aaaa-aaaaaaaaaaaa"

/-- Identifier of the end-to-end example child section. -/
def uB : String := "bbbbbbbb-bbbb-bbbb-bbbb-bbbbbbbbbbbb"

/-- Identifier of the front-matter document. -/
def uD : String := "dddddddd-dddd-dddd-dddd-dddddddddddd"

/-- A valid identifier that no node of any test corpus carries. -/
def uE : String := "eeeeeeee-eeee-eeee-eeee-eeeeeeeeeeee"

/-- File identifier of the unresolved-link corpus. -/
def uF : String := "ffffffff-ffff-ffff-ffff-ffffffffffff"

/-- First, second and third section identifiers of the nesting corpus. -/
def u51 : String := "11111111-1111-1111-1111-111111111111"

/-- Second section identifier of the nesting corpus. -/
def u52 : String := "22222222-2222-2222-2222-222222222222"

/-- Third section identifier of the nesting corpus. -/
def u53 : String := "33333333-3333-3333-3333-333333333333"

/-- An export-tagged document carrying the given file identifier. -/
def c1doc (idStr : String) : List Ev :=
  [Ev.enterDocument, Ev.enterSection,
   Ev.propertyDrawer [":ID: " ++ idStr],
   Ev.keyword "#+filetags: :export:",
   Ev.leaveSection, Ev.leaveDocument]

/-- Two documents carrying the SAME identifier. -/
def c1docs : List (String × List Ev) :=
  [("n/a.org", c1doc uA), ("n/b.org", c1doc uA)]

/-- The export-tagged child headline of the end-to-end example. -/
def hSub : Headline := ⟨1, "Sub", ["export"], [":ID: " ++ uB], (40, 80)⟩

/-- The end-to-end example document: identity, title "Notes", export tag,
one export-tagged child titled "Sub". -/
def c2doc : List Ev :=
  [Ev.enterDocument, Ev.enterSection,
   Ev.propertyDrawer [":ID: " ++ uA],
   Ev.keyword "#+title: Notes",
   Ev.keyword "#+filetags: :export:",
   Ev.leaveSection,
   Ev.enterHeadline hSub,
   Ev.propertyDrawer [":ID: " ++ uB],
   Ev.leaveHeadline hSub,
   Ev.leaveDocument]

/-- The end-to-end example corpus. -/
def c2docs : List (String × List Ev) := [("roam/notes.org", c2doc)]

/-- The rendered output of the example child section. -/
def c2subOut : String := "---\ntitle: Sub\nID: " ++ uB ++ "\n---\n\n"

/-- The rendered output of the example document file.  Note the glued
front-matter entries (no newline between them, see C6). -/
def c2notesOut : String := "---\nID: " ++ uA ++ "title: Notes---\n\n![[sub.org]]\n\n"

/-- A degenerate but syntactically valid document carrying the
filetags-export keyword twice. -/
def c3cex : List Ev :=
  [Ev.keyword "#+filetags: :export:", Ev.keyword "#+filetags: :export:"]

/-- An export-tagged headline with no properties. -/
def h4 : Headline := ⟨1, "Sub", ["export"], [], (0, 9)⟩

/-- A document consisting of one export-tagged headline with empty body. -/
def c4evs : List Ev :=
  [Ev.enterDocument, Ev.enterHeadline h4, Ev.leaveHeadline h4, Ev.leaveDocument]

/-- Export-tagged sections nested at depths 1 < 2 < 3, and a non-exported
depth-4 headline inside the innermost one. -/
def h5a : Headline := ⟨1, "A", ["export"], [":ID: " ++ u51], (0, 100)⟩

/-- The depth-2 export-tagged section of the nesting corpus. -/
def h5b : Headline := ⟨2, "B", ["export"], [":ID: " ++ u52], (10, 90)⟩

/-- The depth-3 export-tagged section of the nesting corpus. -/
def h5c : Headline := ⟨3, "C", ["export"], [":ID: " ++ u53], (20, 80)⟩

/-- The non-exported depth-4 headline of the nesting corpus. -/
def h5d : Headline := ⟨4, "Deep", [], [], (30, 70)⟩

/-- The nesting-correctness document. -/
def c5doc : List Ev :=
  [Ev.enterDocument,
   Ev.enterHeadline h5a, Ev.enterHeadline h5b, Ev.enterHeadline h5c,
   Ev.enterHeadline h5d, Ev.leaveHeadline h5d,
   Ev.leaveHeadline h5c, Ev.leaveHeadline h5b, Ev.leaveHeadline h5a,
   Ev.leaveDocument]

/-- The nesting-correctness corpus. -/
def c5docs : List (String × List Ev) := [("n/d.org", c5doc)]

/-- Expected output of the innermost section: its non-exported child is
renumbered to a top-level heading. -/
def c5cOut : String := "---\ntitle: C\nID: " ++ u53 ++ "\n---\n\n# Deep"

/-- Expected output of the middle section: an embed of the inner one. -/
def c5bOut : String := "---\ntitle: B\nID: " ++ u52 ++ "\n---\n\n![[c.org]]\n\n"

/-- Expected output of the outer section: an embed of the middle one. -/
def c5aOut : String := "---\ntitle: A\nID: " ++ u51 ++ "\n---\n\n![[b.org]]\n\n"

/-- A state with one open Section context, used by witnesses. -/
def w5state : MDState :=
  { thisFile := "f", nodeMap := [], headlineMap := [], fileFrontMatter := [],
    enteredHeadline := true, outputStack := [(ExportContext.headline h5a, "x\n")],
    finishedOutputs := [], insideBlockquote := false }

/-- A document with a file identity and two ordinary metadata keywords. -/
def c6doc : List Ev :=
  [Ev.enterDocument, Ev.enterSection,
   Ev.propertyDrawer [":ID: " ++ uD],
   Ev.keyword "#+title: Notes",
   Ev.keyword "#+author: Me",
   Ev.keyword "#+filetags: :export:",
   Ev.leaveSection, Ev.leaveDocument]

/-- The front-matter corpus. -/
def c6docs : List (String × List Ev) := [("n/doc6.org", c6doc)]

/-- Expected file output of the front-matter corpus: the three entries are
glued together with no newlines between them. -/
def c6out : String := "---\nID: " ++ uD ++ "title: Notesauthor: Me---\n\n"

/-- A local-file link WITH a description. -/
def l7d : Link := ⟨"file:foo.org", true, "Foo", false⟩

/-- A document rendering a described local-file link inside a File context. -/
def c7evs : List Ev :=
  [Ev.keyword "#+filetags: :export:", Ev.enterLink l7d, Ev.text "Foo", Ev.leaveLink l7d]

/-- A state with one open File context and empty buffer, used by witnesses. -/
def w7state : MDState :=
  { thisFile := "f", nodeMap := [], headlineMap := [], fileFrontMatter := [],
    enteredHeadline := false, outputStack := [(ExportContext.file, "")],
    finishedOutputs := [], insideBlockquote := false }

/-- An image link with a file-scheme path. -/
def w7img : Link := ⟨"file:img.png", false, "", true⟩

/-- An identifier link to a valid identifier absent from every corpus. -/
def l8 : Link := ⟨"id:" ++ uE, false, "", false⟩

/-- A document whose only link points at an absent identifier. -/
def c8doc : List Ev :=
  [Ev.enterDocument, Ev.enterSection,
   Ev.propertyDrawer [":ID: " ++ uF],
   Ev.keyword "#+filetags: :export:",
   Ev.enterParagraph, Ev.enterLink l8, Ev.leaveParagraph,
   Ev.leaveSection, Ev.leaveDocument]

/-- The unresolved-link corpus. -/
def c8docs : List (String × List Ev) := [("n/a8.org", c8doc)]

/-- Expected output of the unresolved-link corpus: written in full, with a
literal placeholder. -/
def c8out : String :=
  "---\nID: " ++ uF ++ "---\n\nlink to non-existent uuid " ++ uE ++ "\n"

/-- An export-tagged headline used to show a File context pushed above a
Section context. -/
def h9 : Headline := ⟨1, "T", ["export"], [], (0, 5)⟩

/-- A document whose filetags-export keyword arrives after an export-tagged
headline. -/
def c9cex : List Ev := [Ev.enterHeadline h9, Ev.keyword "#+filetags: :export:"]

/-- An identifier link whose identifier is not syntactically valid. -/
def l10bad : Link := ⟨"id:xyz", false, "", false⟩

/-- A corpus whose only document contains a malformed identifier link. -/
def c10docs : List (String × List Ev) :=
  [("n/x.org",
    [Ev.enterDocument, Ev.enterSection, Ev.keyword "#+filetags: :export:",
     Ev.enterParagraph, Ev.enterLink l10bad, Ev.leaveParagraph,
     Ev.leaveSection, Ev.leaveDocument])]

/-- The state reached after a single filetags-export keyword: one File
context with an empty buffer. -/
def wFileState : MDState :=
  { thisFile := "f", nodeMap := [], headlineMap := [], fileFrontMatter := [],
    enteredHeadline := false, outputStack := [(ExportContext.file, "")],
    finishedOutputs := [], insideBlockquote := false }

/-- The single filetags-export keyword stream reaching `wFileState`. -/
def wFileEvs : List Ev := [Ev.keyword "#+filetags: :export:"]

/-! ## Helper lemmas -/

theorem strDataAppend (a b : String) : (a ++ b).data = a.data ++ b.data := by
  cases a; cases b; rfl

theorem strAppendAssoc (a b c : String) : (a ++ b) ++ c = a ++ (b ++ c) := by
  cases a; cases b; cases c
  show String.mk _ = String.mk _
  rw [List.append_assoc]

theorem isPrefixOfAppendSelf : ∀ a b : List Char, a.isPrefixOf (a ++ b) = true := by
  intro a b
  induction a with
  | nil => simp [List.isPrefixOf]
  | cons c cs ih => simp [List.isPrefixOf, ih]

theorem strStartsWithAppend (a b : String) : strStartsWith (a ++ b) a = true := by
  unfold strStartsWith
  rw [strDataAppend]
  exact isPrefixOfAppendSelf _ _

theorem popCtxsAppend (l : Nat) :
    ∀ st : List (ExportContext × String), st = (popCtxs l st).1 ++ (popCtxs l st).2 := by
  intro st
  induction st with
  | nil => rfl
  | cons cb rest ih =>
    obtain ⟨c, res⟩ := cb
    cases c with
    | file => simp [popCtxs]
    | headline sh =>
      by_cases h : l ≤ sh.level
      · simp only [popCtxs, if_pos h, List.cons_append]
        exact congrArg _ ih
      · simp [popCtxs, if_neg h]

theorem popCtxsFst (l : Nat) :
    ∀ (st : List (ExportContext × String)) cb, cb ∈ (popCtxs l st).1 →
      ∃ hh, cb.1 = ExportContext.headline hh ∧ l ≤ hh.level := by
  intro st
  induction st with
  | nil => intro cb hm; simp [popCtxs] at hm
  | cons cb0 rest ih =>
    obtain ⟨c, res⟩ := cb0
    cases c with
    | file => intro cb hm; simp [popCtxs] at hm
    | headline sh =>
      by_cases h : l ≤ sh.level
      · intro cb hm
        simp only [popCtxs, if_pos h, List.mem_cons] at hm
        rcases hm with he | hm
        · exact ⟨sh, by rw [he], h⟩
        · exact ih cb hm
      · intro cb hm; simp [popCtxs, if_neg h] at hm

theorem popCtxsSndHead (l : Nat) :
    ∀ (st : List (ExportContext × String)) c out rest2,
      (popCtxs l st).2 = (c, out) :: rest2 →
      c = ExportContext.file ∨ ∃ hh, c = ExportContext.headline hh ∧ hh.level < l := by
  intro st
  induction st with
  | nil => intro c out rest2 h; simp [popCtxs] at h
  | cons cb0 rest ih =>
    obtain ⟨c0, r0⟩ := cb0
    cases c0 with
    | file =>
      intro c out rest2 h
      simp only [popCtxs, List.cons.injEq, Prod.mk.injEq] at h
      exact Or.inl h.1.1.symm
    | headline sh =>
      by_cases h : l ≤ sh.level
      · intro c out rest2 he
        simp only [popCtxs, if_pos h] at he
        exact ih c out rest2 he
      · intro c out rest2 he
        simp only [popCtxs, if_neg h, List.cons.injEq, Prod.mk.injEq] at he
        exact Or.inr ⟨sh, he.1.1.symm, Nat.not_le.mp h⟩

theorem wfConsElim {c1 c2 : ExportContext} {rest : List ExportContext}
    (h : stackShapeWF (c1 :: c2 :: rest) = true) :
    (∃ hh, c1 = ExportContext.headline hh) ∧ ctxLevel c2 < ctxLevel c1 ∧
      stackShapeWF (c2 :: rest) = true := by
  cases c1 with
  | file => simp [stackShapeWF] at h
  | headline hh =>
    simp only [stackShapeWF, Bool.and_eq_true, decide_eq_true_eq] at h
    exact ⟨⟨hh, rfl⟩, h.1, h.2⟩

theorem wfTail {c : ExportContext} {l : List ExportContext}
    (h : stackShapeWF (c :: l) = true) : stackShapeWF l = true := by
  cases l with
  | nil => rfl
  | cons c2 rest => exact (wfConsElim h).2.2

theorem wfAppendRight : ∀ l1 l2 : List ExportContext,
    stackShapeWF (l1 ++ l2) = true → stackShapeWF l2 = true := by
  intro l1
  induction l1 with
  | nil => intro l2 h; exact h
  | cons c rest ih => intro l2 h; exact ih l2 (wfTail h)

theorem wfConsIntro (hh : Headline) (tl : List ExportContext)
    (hwf : stackShapeWF tl = true)
    (hlt : ∀ c, tl.head? = some c → ctxLevel c < hh.level) :
    stackShapeWF (ExportContext.headline hh :: tl) = true := by
  cases tl with
  | nil => rfl
  | cons c2 rest =>
    simp only [stackShapeWF, Bool.and_eq_true, decide_eq_true_eq]
    exact ⟨hlt c2 rfl, hwf⟩

theorem wfBelow : ∀ (tl : List ExportContext) (c : ExportContext),
    stackShapeWF (c :: tl) = true → ∀ c2 ∈ tl, ctxLevel c2 < ctxLevel c := by
  intro tl
  induction tl with
  | nil => intro c _ c2 hm; simp at hm
  | cons c2 rest ih =>
    intro c h c3 hm
    obtain ⟨_, hlt, hwf⟩ := wfConsElim h
    rcases List.mem_cons.mp hm with he | hm2
    · rw [he]; exact hlt
    · exact Nat.lt_trans (ih c2 hwf c3 hm2) hlt

theorem wfFileHead {tl : List ExportContext}
    (h : stackShapeWF (ExportContext.file :: tl) = true) : tl = [] := by
  cases tl with
  | nil => rfl
  | cons c2 rest => simp [stackShapeWF] at h

theorem wfCount : ∀ l : List ExportContext, stackShapeWF l = true →
    List.countP (fun c => isFileCtx c) l ≤ 1 := by
  intro l
  induction l with
  | nil => intro _; simp
  | cons c tl ih =>
    intro h
    cases tl with
    | nil =>
      cases c <;> simp [List.countP, List.countP.go, isFileCtx]
    | cons c2 rest =>
      obtain ⟨⟨hh, he⟩, _, hwf⟩ := wfConsElim h
      rw [he, List.countP_cons]
      simpa [isFileCtx] using ih hwf

theorem wfDropLast : ∀ l : List ExportContext, stackShapeWF l = true →
    l.dropLast.all (fun c => !isFileCtx c) = true := by
  intro l
  induction l with
  | nil => intro _; rfl
  | cons c tl ih =>
    intro h
    cases tl with
    | nil => rfl
    | cons c2 rest =>
      obtain ⟨⟨hh, he⟩, _, hwf⟩ := wfConsElim h
      have : (c :: c2 :: rest).dropLast = c :: (c2 :: rest).dropLast := rfl
      rw [this, List.all_cons, he]
      simpa [isFileCtx] using ih hwf

theorem goodDocTail {e : Ev} {rest : List Ev} (h : goodDoc (e :: rest) = true) :
    goodDoc rest = true := by
  simp only [goodDoc, Bool.and_eq_true] at h
  exact h.2

theorem goodDocHead {e : Ev} {rest : List Ev} (h : goodDoc (e :: rest) = true)
    (hs : isFiletagsExport e = true ∨ isExportHeadline e = true) :
    hasFE rest = false := by
  simp only [goodDoc, Bool.and_eq_true, Bool.or_eq_true, Bool.and_eq_true,
    Bool.not_eq_true'] at h
  rcases h.1 with ⟨h1, h2⟩ | h3
  · rcases hs with hfe | heh
    · rw [hfe] at h1; simp at h1
    · rw [heh] at h2; simp at h2
  · exact h3

theorem hasFEAppend (a b : List Ev) : hasFE (a ++ b) = (hasFE a || hasFE b) :=
  List.any_append

theorem goodDocAppendLeft : ∀ a b : List Ev, goodDoc (a ++ b) = true →
    goodDoc a = true := by
  intro a
  induction a with
  | nil => intro b _; rfl
  | cons e a2 ih =>
    intro b h
    rw [List.cons_append] at h
    have h2 := goodDocTail h
    simp only [goodDoc, Bool.and_eq_true] at h ⊢
    refine ⟨?_, ih b h2⟩
    rcases Bool.or_eq_true_iff.mp h.1 with h1 | h1
    · exact Bool.or_eq_true_iff.mpr (Or.inl h1)
    · refine Bool.or_eq_true_iff.mpr (Or.inr ?_)
      rw [Bool.not_eq_true'] at h1 ⊢
      rw [hasFEAppend] at h1
      exact (Bool.or_eq_false_iff.mp h1).1

theorem levelsOKTail {e : Ev} {rest : List Ev} (h : levelsOK (e :: rest) = true) :
    levelsOK rest = true := by
  simp only [levelsOK, List.all_cons, Bool.and_eq_true] at h
  exact h.2

theorem levelsOKAppendLeft (a b : List Ev) (h : levelsOK (a ++ b) = true) :
    levelsOK a = true := by
  simp only [levelsOK, List.all_append, Bool.and_eq_true] at h
  exact h.1

theorem goodDocFullTail {e : Ev} {rest : List Ev}
    (h : goodDocFull (e :: rest) = true) : goodDocFull rest = true := by
  simp only [goodDocFull, Bool.and_eq_true] at h ⊢
  exact ⟨goodDocTail h.1, levelsOKTail h.2⟩

theorem goodDocFullAppendLeft (a b : List Ev) (h : goodDocFull (a ++ b) = true) :
    goodDocFull a = true := by
  simp only [goodDocFull, Bool.and_eq_true] at h ⊢
  exact ⟨goodDocAppendLeft a b h.1, levelsOKAppendLeft a b h.2⟩

theorem goodDocFullHeadLevel {h : Headline} {rest : List Ev}
    (hg : goodDocFull (Ev.enterHeadline h :: rest) = true) : 1 ≤ h.level := by
  simp only [goodDocFull, Bool.and_eq_true, levelsOK, List.all_cons] at hg
  have := hg.2.1
  simpa using this

theorem bufOnTopShape (s : MDState) (f : String → String) :
    (bufOnTop s f).outputStack.map Prod.fst = s.outputStack.map Prod.fst ∧
    (bufOnTop s f).finishedOutputs = s.finishedOutputs ∧
    (s.outputStack = [] → (bufOnTop s f).outputStack = []) := by
  cases hst : s.outputStack with
  | nil => simp [bufOnTop, hst]
  | cons co rest => simp [bufOnTop, hst]

theorem stepQuoteEnterShape (s : MDState) :
    (stepQuoteEnter s).outputStack.map Prod.fst = s.outputStack.map Prod.fst ∧
    (stepQuoteEnter s).finishedOutputs = s.finishedOutputs ∧
    (s.outputStack = [] → (stepQuoteEnter s).outputStack = []) := by
  cases hst : s.outputStack with
  | nil => simp [stepQuoteEnter, hst]
  | cons co rest => obtain ⟨c, out⟩ := co; simp [stepQuoteEnter, hst]

theorem stepQuoteLeaveShape (s : MDState) :
    (stepQuoteLeave s).outputStack.map Prod.fst = s.outputStack.map Prod.fst ∧
    (stepQuoteLeave s).finishedOutputs = s.finishedOutputs ∧
    (s.outputStack = [] → (stepQuoteLeave s).outputStack = []) := by
  cases hst : s.outputStack with
  | nil => simp [stepQuoteLeave, hst]
  | cons co rest => simp [stepQuoteLeave, hst]

theorem stepKeywordShape {s : MDState} {raw : String} {s2 : MDState}
    (hok : stepKeyword s raw = Except.ok s2) :
    (keywordPushesFile raw = true ∧
       s2.outputStack = (ExportContext.file, "") :: s.outputStack ∧
       s2.finishedOutputs = s.finishedOutputs) ∨
    (keywordPushesFile raw = false ∧ s2.outputStack = s.outputStack ∧
       s2.finishedOutputs = s.finishedOutputs) := by
  unfold stepKeyword at hok
  cases h1 : strStartsWith raw "#+filetags" with
  | false =>
    simp only [h1, Bool.false_eq_true, if_false] at hok
    cases h2 : splitOnceStr (trimStartMatches raw "#+") ':' with
    | none => simp only [h2] at hok; exact Except.noConfusion hok
    | some kv =>
      simp only [h2] at hok
      injection hok with h3
      subst h3
      exact Or.inr ⟨by simp [keywordPushesFile, h1], rfl, rfl⟩
  | true =>
    simp only [h1, if_true] at hok
    cases h2 : splitOnceStr raw ':' with
    | none => simp only [h2] at hok; exact Except.noConfusion hok
    | some kv =>
      simp only [h2] at hok
      cases h3 : tagsHaveExport kv.2 with
      | false =>
        simp only [h3, Bool.false_eq_true, if_false] at hok
        injection hok with h4
        subst h4
        exact Or.inr ⟨by simp [keywordPushesFile, h1, h2, h3], rfl, rfl⟩
      | true =>
        simp only [h3, if_true] at hok
        injection hok with h4
        subst h4
        exact Or.inl ⟨by simp [keywordPushesFile, h1, h2, h3], rfl, rfl⟩

theorem stepDrawerShape {s : MDState} {props : List String} {s2 : MDState}
    (hok : stepDrawer s props = Except.ok s2) :
    s2.outputStack = s.outputStack ∧ s2.finishedOutputs = s.finishedOutputs := by
  unfold stepDrawer at hok
  cases h1 : s.enteredHeadline with
  | true =>
    simp only [h1, if_true] at hok
    injection hok with h2
    subst h2
    exact ⟨rfl, rfl⟩
  | false =>
    simp only [h1, Bool.false_eq_true, if_false] at hok
    cases h2 : drawerEntries props with
    | none => simp only [h2] at hok; exact Except.noConfusion hok
    | some entries =>
      simp only [h2] at hok
      injection hok with h3
      subst h3
      exact ⟨rfl, rfl⟩

theorem stepLinkShape {s : MDState} {l : Link} {s2 : MDState}
    (hok : stepLink s l = Except.ok s2) :
    s2.outputStack.map Prod.fst = s.outputStack.map Prod.fst ∧
    s2.finishedOutputs = s.finishedOutputs ∧
    (s.outputStack = [] → s2.outputStack = []) := by
  unfold stepLink at hok
  cases hst : s.outputStack with
  | nil =>
    simp only [hst] at hok
    injection hok with h2
    subst h2
    exact ⟨by rw [hst], rfl, fun _ => hst⟩
  | cons co rest =>
    obtain ⟨c, out⟩ := co
    simp only [hst] at hok
    cases h2 : linkText s.nodeMap l out with
    | none => simp only [h2] at hok; exact Except.noConfusion hok
    | some out2 =>
      simp only [h2] at hok
      injection hok with h3
      subst h3
      refine ⟨by simp [hst], rfl, ?_⟩
      intro hnil
      exact List.noConfusion hnil

theorem stepHeadlineShape {s : MDState} {h : Headline} {s2 : MDState}
    (hok : stepHeadline s h = Except.ok s2) :
    s2.finishedOutputs = s.finishedOutputs ++ (popCtxs h.level s.outputStack).1 ∧
    ((h.tags.contains EXPORT_TAG = true ∧
        s2.outputStack.map Prod.fst =
          ExportContext.headline h :: ((popCtxs h.level s.outputStack).2.map Prod.fst)) ∨
     (h.tags.contains EXPORT_TAG = false ∧
        s2.outputStack.map Prod.fst = (popCtxs h.level s.outputStack).2.map Prod.fst)) := by
  unfold stepHeadline at hok
  cases he : h.tags.contains EXPORT_TAG with
  | true =>
    simp only [he, if_true] at hok
    cases hp : headlinePreamble h with
    | none => simp only [hp] at hok; exact Except.noConfusion hok
    | some pre =>
      simp only [hp] at hok
      cases h2 : (popCtxs h.level s.outputStack).2 with
      | nil =>
        simp only [h2] at hok
        injection hok with h3
        subst h3
        exact ⟨rfl, Or.inl ⟨rfl, by simp [h2]⟩⟩
      | cons co rest =>
        obtain ⟨c, out⟩ := co
        simp only [h2] at hok
        injection hok with h3
        subst h3
        exact ⟨rfl, Or.inl ⟨rfl, by simp [h2]⟩⟩
  | false =>
    simp only [he, Bool.false_eq_true, if_false] at hok
    cases h2 : (popCtxs h.level s.outputStack).2 with
    | nil =>
      simp only [h2] at hok
      injection hok with h3
      subst h3
      exact ⟨rfl, Or.inr ⟨rfl, by simp [h2]⟩⟩
    | cons co rest =>
      obtain ⟨c, out⟩ := co
      simp only [h2] at hok
      injection hok with h3
      subst h3
      exact ⟨rfl, Or.inr ⟨rfl, by simp [h2]⟩⟩

/-- Structural effect of one renderer step on the context stack and the
finished outputs: a filetags-export keyword pushes a File context; an
`Enter(Headline)` finalizes exactly the popped contexts and possibly pushes
one Section context; every other event leaves the stack contexts and the
finished outputs unchanged (and keeps an empty stack empty). -/
theorem mdStepShape {s : MDState} {e : Ev} {s2 : MDState}
    (hok : mdStep s e = Except.ok s2) :
    (isFiletagsExport e = true ∧
       s2.outputStack = (ExportContext.file, "") :: s.outputStack ∧
       s2.finishedOutputs = s.finishedOutputs) ∨
    (∃ h, e = Ev.enterHeadline h ∧
       s2.finishedOutputs = s.finishedOutputs ++ (popCtxs h.level s.outputStack).1 ∧
       ((h.tags.contains EXPORT_TAG = true ∧
           s2.outputStack.map Prod.fst =
             ExportContext.headline h :: ((popCtxs h.level s.outputStack).2.map Prod.fst)) ∨
        (h.tags.contains EXPORT_TAG = false ∧
           s2.outputStack.map Prod.fst = (popCtxs h.level s.outputStack).2.map Prod.fst))) ∨
    (isFiletagsExport e = false ∧
       s2.outputStack.map Prod.fst = s.outputStack.map Prod.fst ∧
       s2.finishedOutputs = s.finishedOutputs ∧
       (s.outputStack = [] → s2.outputStack = [])) := by
  cases e with
  | keyword raw =>
    have hk : stepKeyword s raw = Except.ok s2 := hok
    rcases stepKeywordShape hk with ⟨h1, h2, h3⟩ | ⟨h1, h2, h3⟩
    · exact Or.inl ⟨by simp [isFiletagsExport, h1], h2, h3⟩
    · refine Or.inr (Or.inr ⟨by simp [isFiletagsExport, h1], by rw [h2], h3, ?_⟩)
      intro hnil; rw [h2, hnil]
  | propertyDrawer props =>
    have hk : stepDrawer s props = Except.ok s2 := hok
    obtain ⟨h1, h2⟩ := stepDrawerShape hk
    refine Or.inr (Or.inr ⟨rfl, by rw [h1], h2, ?_⟩)
    intro hnil; rw [h1, hnil]
  | enterHeadline h =>
    have hk : stepHeadline s h = Except.ok s2 := hok
    obtain ⟨h1, h2⟩ := stepHeadlineShape hk
    exact Or.inr (Or.inl ⟨h, rfl, h1, h2⟩)
  | enterLink l =>
    have hk : stepLink s l = Except.ok s2 := hok
    obtain ⟨h1, h2, h3⟩ := stepLinkShape hk
    exact Or.inr (Or.inr ⟨rfl, h1, h2, h3⟩)
  | leaveHeadline h =>
    injection hok with h2; subst h2
    exact Or.inr (Or.inr ⟨rfl, rfl, rfl, fun hnil => hnil⟩)
  | enterDocument =>
    injection hok with h2; subst h2
    exact Or.inr (Or.inr ⟨rfl, rfl, rfl, fun hnil => hnil⟩)
  | leaveDocument =>
    injection hok with h2; subst h2
    exact Or.inr (Or.inr ⟨rfl, rfl, rfl, fun hnil => hnil⟩)
  | leaveSection =>
    injection hok with h2; subst h2
    exact Or.inr (Or.inr ⟨rfl, rfl, rfl, fun hnil => hnil⟩)
  | enterParagraph =>
    injection hok with h2; subst h2
    exact Or.inr (Or.inr ⟨rfl, rfl, rfl, fun hnil => hnil⟩)
  | enterSection =>
    injection hok with h2; subst h2
    exact Or.inr (Or.inr ⟨rfl, (bufOnTopShape s ensureNl).1, (bufOnTopShape s ensureNl).2.1,
      (bufOnTopShape s ensureNl).2.2⟩)
  | leaveParagraph =>
    injection hok with h2; subst h2
    exact Or.inr (Or.inr ⟨rfl, (bufOnTopShape s _).1, (bufOnTopShape s _).2.1,
      (bufOnTopShape s _).2.2⟩)
  | text t =>
    injection hok with h2; subst h2
    exact Or.inr (Or.inr ⟨rfl, (bufOnTopShape s _).1, (bufOnTopShape s _).2.1,
      (bufOnTopShape s _).2.2⟩)
  | rule =>
    injection hok with h2; subst h2
    exact Or.inr (Or.inr ⟨rfl, (bufOnTopShape s _).1, (bufOnTopShape s _).2.1,
      (bufOnTopShape s _).2.2⟩)
  | leaveLink l =>
    injection hok with h2; subst h2
    exact Or.inr (Or.inr ⟨rfl, (bufOnTopShape s _).1, (bufOnTopShape s _).2.1,
      (bufOnTopShape s _).2.2⟩)
  | enterQuoteBlock =>
    injection hok with h2; subst h2
    exact Or.inr (Or.inr ⟨rfl, (stepQuoteEnterShape s).1, (stepQuoteEnterShape s).2.1,
      (stepQuoteEnterShape s).2.2⟩)
  | leaveQuoteBlock =>
    injection hok with h2; subst h2
    exact Or.inr (Or.inr ⟨rfl, (stepQuoteLeaveShape s).1, (stepQuoteLeaveShape s).2.1,
      (stepQuoteLeaveShape s).2.2⟩)

theorem exceptBindOkElim {α β : Type} {x : Except String α} {f : α → Except String β}
    {b : β} (h : x >>= f = Except.ok b) : ∃ a, x = Except.ok a ∧ f a = Except.ok b := by
  cases x with
  | error e =>
    exfalso
    simp only [Bind.bind, Except.bind] at h
    exact Except.noConfusion h
  | ok a =>
    refine ⟨a, rfl, ?_⟩
    simpa only [Bind.bind, Except.bind] using h

theorem goodDocPart {evs : List Ev} (hg : goodDocFull evs = true) : goodDoc evs = true := by
  simp only [goodDocFull, Bool.and_eq_true] at hg
  exact hg.1

/-- The invariant carried through a well-formed document: the context-stack
shape is preserved and the File context never reaches the finished outputs
during the traversal. -/
theorem invFold : ∀ (evs : List Ev) (s s2 : MDState),
    goodDocFull evs = true →
    stackShapeWF (s.outputStack.map Prod.fst) = true →
    (hasFE evs = true → s.outputStack = []) →
    s.finishedOutputs.all (fun cb => !isFileCtx cb.1) = true →
    List.foldlM mdStep s evs = Except.ok s2 →
    stackShapeWF (s2.outputStack.map Prod.fst) = true ∧
    s2.finishedOutputs.all (fun cb => !isFileCtx cb.1) = true := by
  intro evs
  induction evs with
  | nil =>
    intro s s2 _ hwf _ hfin hok
    simp only [List.foldlM_nil, pure, Except.pure] at hok
    injection hok with h
    subst h
    exact ⟨hwf, hfin⟩
  | cons e rest ih =>
    intro s s2 hg hwf hfe hfin hok
    rw [List.foldlM_cons] at hok
    obtain ⟨s1, hok1, hok2⟩ := exceptBindOkElim hok
    have hgrest : goodDocFull rest = true := goodDocFullTail hg
    rcases mdStepShape hok1 with ⟨hfe1, hstk, hfin1⟩ | ⟨h, he, hfin1, hdisj⟩ |
      ⟨hfe1, hstk, hfin1, hemp⟩
    · -- a filetags-export keyword: the stack was empty, one File context is pushed
      have hcons : hasFE (e :: rest) = true := by
        unfold hasFE
        rw [List.any_cons, hfe1, Bool.true_or]
      have hempty : s.outputStack = [] := hfe hcons
      have hnofe : hasFE rest = false := goodDocHead (goodDocPart hg) (Or.inl hfe1)
      refine ih s1 s2 hgrest ?_ ?_ ?_ hok2
      · rw [hstk, hempty]
        rfl
      · intro hcontra
        rw [hnofe] at hcontra
        exact Bool.noConfusion hcontra
      · rw [hfin1]
        exact hfin
    · -- a headline: pop, then possibly push one Section context
      subst he
      have hlvl : 1 ≤ h.level := goodDocFullHeadLevel hg
      have hsplit : s.outputStack.map Prod.fst =
          (popCtxs h.level s.outputStack).1.map Prod.fst ++
          (popCtxs h.level s.outputStack).2.map Prod.fst := by
        conv_lhs => rw [popCtxsAppend h.level s.outputStack]
        exact List.map_append _ _ _
      have hwf2 : stackShapeWF ((popCtxs h.level s.outputStack).2.map Prod.fst) = true := by
        apply wfAppendRight ((popCtxs h.level s.outputStack).1.map Prod.fst)
        rw [← hsplit]
        exact hwf
      have hfin2 : s1.finishedOutputs.all (fun cb => !isFileCtx cb.1) = true := by
        rw [hfin1, List.all_append, Bool.and_eq_true]
        refine ⟨hfin, ?_⟩
        rw [List.all_eq_true]
        intro cb hm
        obtain ⟨hh, hcb, _⟩ := popCtxsFst h.level s.outputStack cb hm
        rw [hcb]
        rfl
      rcases hdisj with ⟨hexp, hstk⟩ | ⟨hexp, hstk⟩
      · -- export-tagged: a Section context is pushed on the popped stack
        have hnofe : hasFE rest = false := goodDocHead (goodDocPart hg) (Or.inr hexp)
        refine ih s1 s2 hgrest ?_ ?_ hfin2 hok2
        · rw [hstk]
          refine wfConsIntro h _ hwf2 ?_
          intro c hc
          cases h2 : (popCtxs h.level s.outputStack).2 with
          | nil => rw [h2] at hc; exact Option.noConfusion hc
          | cons co r2 =>
            rw [h2] at hc
            simp only [List.map_cons, List.head?_cons, Option.some.injEq] at hc
            subst hc
            rcases popCtxsSndHead h.level s.outputStack co.1 co.2 r2 (by rw [h2]) with
              hfile | ⟨hh, hch, hhlt⟩
            · rw [hfile]
              exact Nat.lt_of_lt_of_le Nat.zero_lt_one hlvl
            · rw [hch]
              exact hhlt
        · intro hcontra
          rw [hnofe] at hcontra
          exact Bool.noConfusion hcontra
      · -- not export-tagged: only the pop happened
        refine ih s1 s2 hgrest ?_ ?_ hfin2 hok2
        · rw [hstk]
          exact hwf2
        · intro hfer
          have hcons : hasFE (Ev.enterHeadline h :: rest) = true := by
            unfold hasFE at hfer ⊢
            rw [List.any_cons, hfer, Bool.or_true]
          have hempty : s.outputStack = [] := hfe hcons
          have : (popCtxs h.level s.outputStack).2 = [] := by
            rw [hempty]
            rfl
          rw [this] at hstk
          have hstk2 : List.map Prod.fst s1.outputStack = [] := by simpa using hstk
          exact List.map_eq_nil_iff.mp hstk2
    · -- every other event: stack contexts and finished outputs unchanged
      refine ih s1 s2 hgrest ?_ ?_ ?_ hok2
      · rw [hstk]
        exact hwf
      · intro hfer
        have hcons : hasFE (e :: rest) = true := by
          unfold hasFE at hfer ⊢
          rw [List.any_cons, hfer, Bool.or_true]
        exact hemp (hfe hcons)
      · rw [hfin1]
        exact hfin

/-! ## Claim theorems -/

/-- Claim C1, counterexample: a corpus in which the same identifier appears
on two distinct nodes does NOT fail the indexing pass — `corpusNodes`
succeeds, and the whole run proceeds to render and produce both outputs,
contradicting the claimed fatal duplicate-identifier error. -/
theorem C1_counterexample :
    corpusNodes c1docs =
      Except.ok [(⟨uA⟩, Node.file "n/a.org"), (⟨uA⟩, Node.file "n/b.org")] ∧
    runCorpus c1docs =
      Except.ok [("a.org", "---\nID: " ++ uA ++ "---\n\n"),
                 ("b.org", "---\nID: " ++ uA ++ "---\n\n")] := ⟨rfl, rfl⟩

/-- Claim C1, amended: duplicate identifiers are not detected; the
id→filename table silently keeps a single mapping for the duplicated
identifier (the most recently inserted one), and rendering proceeds for the
whole corpus. -/
theorem C1_amended_duplicates_silent :
    buildFilenames [(⟨uA⟩, Node.file "n/a.org"), (⟨uA⟩, Node.file "n/b.org")] =
      [(⟨uA⟩, "b")] ∧
    (runCorpus c1docs).isOk = true := ⟨rfl, rfl⟩

/-- Claim C2, counterexample: the end-to-end example corpus produces the
files `sub.org` and `notes.org` — not `notes.md` and `sub.md` as claimed. -/
theorem C2_counterexample :
    (runCorpus c2docs).map (fun l => l.map Prod.fst) =
      Except.ok ["sub.org", "notes.org"] ∧
    (runCorpus c2docs).map (fun l =>
        (l.map Prod.fst).contains "notes.md" || (l.map Prod.fst).contains "sub.md") =
      Except.ok false := ⟨rfl, rfl⟩

/-- Claim C2, amended: the run produces exactly two output files, `notes.org`
and `sub.org`; `notes.org` begins with the front-matter delimiter, its front
matter contains the entry `title: Notes`, and its body contains an embed
reference to `sub.org`; `sub.org` begins with front matter containing
`title: Sub` and has an otherwise empty body. -/
theorem C2_amended_end_to_end :
    runCorpus c2docs = Except.ok [("sub.org", c2subOut), ("notes.org", c2notesOut)] ∧
    strStartsWith c2notesOut "---\n" = true ∧
    substrStr "title: Notes" c2notesOut = true ∧
    substrStr "![[sub.org]]" c2notesOut = true ∧
    strStartsWith c2subOut "---\n" = true ∧
    substrStr "title: Sub" c2subOut = true ∧
    c2subOut = "---\ntitle: Sub\nID: " ++ uB ++ "\n---\n\n" :=
  ⟨rfl, rfl, rfl, rfl, rfl, rfl, rfl⟩

/-- Claim C3, counterexample: a syntactically legal document carrying the
filetags-export keyword twice drives the splitter into a stack with TWO File
contexts (one of them above the bottom), violating the claimed invariant. -/
theorem C3_counterexample :
    (List.foldlM mdStep (mdInit "f" [] []) c3cex).map
        (fun s => (s.outputStack.map Prod.fst, stackShapeWF (s.outputStack.map Prod.fst))) =
      Except.ok ([ExportContext.file, ExportContext.file], false) := rfl

/-- Claim C4, counterexample: the finalized output of an export-tagged
section does NOT contain the anchor's own heading; the section's output is
exactly the front-matter preamble (the code pushes the new context and
returns before rendering the heading). -/
theorem C4_counterexample :
    runDoc "f" [] [] c4evs =
      Except.ok [(ExportContext.headline h4, "---\ntitle: Sub\n---\n\n")] ∧
    substrStr "# Sub" "---\ntitle: Sub\n---\n\n" = false := ⟨rfl, rfl⟩

/-- Claim C6 evaluated at the failing input: file-level front-matter entries
are emitted WITHOUT a trailing newline each (`format!("{k}: {v}")` in
`MarkdownExport::finish`), so consecutive entries and the closing delimiter
are glued onto one line, contradicting the claimed one-line-per-entry
serialization. -/
theorem C6_front_matter_eval :
    runCorpus c6docs = Except.ok [("doc6.org", c6out)] ∧
    substrStr "title: Notes\n" c6out = false ∧
    substrStr "title: Notesauthor: Me---" c6out = true := ⟨rfl, rfl, rfl⟩

/-- Claim C7, counterexample: a local-file link WITH a description is closed
with the RAW path — the file-scheme prefix is not stripped from the emitted
target, contradicting the claim. -/
theorem C7_counterexample :
    runDoc "f" [] [] c7evs =
      Except.ok [(ExportContext.file, "---\n---\n\n[Foo](file:foo.org)")] ∧
    substrStr "](foo.org)" "[Foo](file:foo.org)" = false := ⟨rfl, rfl⟩

/-- Claim C9, counterexample: a filetags-export keyword arriving after an
export-tagged headline pushes the File context ON TOP of the open Section
context, so the File context does not sit beneath all Section contexts. -/
theorem C9_counterexample :
    (List.foldlM mdStep (mdInit "f" [] []) c9cex).map
        (fun s => s.outputStack.map Prod.fst) =
      Except.ok [ExportContext.file, ExportContext.headline h9] ∧
    ([ExportContext.file, ExportContext.headline h9].dropLast.all
        (fun c => !isFileCtx c)) = false := ⟨rfl, rfl⟩

/-- Claim C10: a link whose path starts with the identifier scheme but whose
remainder is not a syntactically valid UUID makes rendering panic (modelled
as `Except.error "invalid id"`), aborting the whole run — while the same
link with a well-formed but unresolvable identifier leaves the run
successful. -/
theorem C10_invalid_id_panics :
    runCorpus c10docs = Except.error "invalid id" ∧
    (runCorpus c8docs).isOk = true := ⟨rfl, rfl⟩

/-- Claim C3, amended: for documents in which headline levels are positive
and a filetags-export keyword (if any) is unique and precedes every
export-tagged headline, the context stack satisfies the claimed invariant at
every point of the traversal (File only at the bottom, Section contexts in
strictly increasing depth towards the top); moreover, under that invariant,
the pop phase of a headline at level L removes exactly the Section contexts
of level ≥ L (the remaining Sections all have level < L), and those popped
contexts are appended to the finished outputs during that same step. -/
theorem C3_amended_stack_invariant :
    (∀ (f : String) (nm : List (Uuid × String))
        (hm : List ((String × Nat × Nat) × String)) (evs pre suf : List Ev) (s2 : MDState),
        goodDocFull evs = true → evs = pre ++ suf →
        List.foldlM mdStep (mdInit f nm hm) pre = Except.ok s2 →
        stackShapeWF (s2.outputStack.map Prod.fst) = true) ∧
    (∀ (l : Nat) (st : List (ExportContext × String)),
        stackShapeWF (st.map Prod.fst) = true → 1 ≤ l →
        st = (popCtxs l st).1 ++ (popCtxs l st).2 ∧
        (∀ cb ∈ (popCtxs l st).1, ∃ hh, cb.1 = ExportContext.headline hh ∧ l ≤ hh.level) ∧
        (∀ cb ∈ (popCtxs l st).2, ∀ hh, cb.1 = ExportContext.headline hh → hh.level < l)) ∧
    (∀ (s : MDState) (h : Headline) (s2 : MDState),
        mdStep s (Ev.enterHeadline h) = Except.ok s2 →
        s2.finishedOutputs = s.finishedOutputs ++ (popCtxs h.level s.outputStack).1) := by
  refine ⟨?_, ?_, ?_⟩
  · intro f nm hm evs pre suf s2 hg he hfold
    subst he
    have hgpre : goodDocFull pre = true := goodDocFullAppendLeft pre suf hg
    exact (invFold pre (mdInit f nm hm) s2 hgpre rfl (fun _ => rfl) rfl hfold).1
  · intro l st hwf hl
    refine ⟨popCtxsAppend l st, popCtxsFst l st, ?_⟩
    intro cb hm2 hh hcb
    have hwf2 : stackShapeWF ((popCtxs l st).2.map Prod.fst) = true := by
      apply wfAppendRight ((popCtxs l st).1.map Prod.fst)
      rw [← List.map_append]
      rw [← popCtxsAppend l st]
      exact hwf
    cases h2 : (popCtxs l st).2 with
    | nil => rw [h2] at hm2; simp at hm2
    | cons co r2 =>
      rw [h2] at hm2
      rcases popCtxsSndHead l st co.1 co.2 r2 (by rw [h2]) with hfile | ⟨hh0, hch0, hlt0⟩
      · -- head is the File context: well-formedness forces the rest empty
        rw [h2] at hwf2
        have hr2 : r2.map Prod.fst = [] := by
          apply wfFileHead
          rw [← hfile]
          simpa using hwf2
        rcases List.mem_cons.mp hm2 with hceq | hmem
        · exfalso
          rw [hceq] at hcb
          rw [hfile] at hcb
          exact ExportContext.noConfusion hcb
        · exfalso
          have : cb.1 ∈ r2.map Prod.fst := List.mem_map_of_mem Prod.fst hmem
          rw [hr2] at this
          simp at this
      · rw [h2] at hwf2
        rcases List.mem_cons.mp hm2 with hceq | hmem
        · rw [hceq] at hcb
          rw [hch0] at hcb
          injection hcb with hhh
          rw [← hhh]
          exact hlt0
        · have hin : cb.1 ∈ r2.map Prod.fst := List.mem_map_of_mem Prod.fst hmem
          have hbelow := wfBelow (r2.map Prod.fst) co.1 (by simpa using hwf2) cb.1 hin
          rw [hch0] at hbelow
          rw [hcb] at hbelow
          exact Nat.lt_trans hbelow hlt0
  · intro s h s2 hok
    exact (stepHeadlineShape hok).1

/-- Claim C3 witness: a concrete good document reaching a concrete state
whose stack satisfies the invariant. -/
theorem C3_witness : stackShapeWF (wFileState.outputStack.map Prod.fst) = true :=
  C3_amended_stack_invariant.1 "f" [] [] wFileEvs wFileEvs [] wFileState (by decide)
    (List.append_nil wFileEvs).symm rfl

/-- Claim C4, amended: on entering an export-tagged headline the splitter
pushes a new Section context whose initial buffer is exactly the
front-matter preamble — beginning with the title entry — and the anchor's
own heading is never rendered into it (see the counterexample for the
absence of the heading in the finalized output). -/
theorem C4_amended_anchor_heading :
    ∀ (s : MDState) (h : Headline) (pre : String),
      h.tags.contains EXPORT_TAG = true →
      headlinePreamble h = some pre →
      (mdStep s (Ev.enterHeadline h)).map (fun t => t.outputStack.head?) =
        Except.ok (some (ExportContext.headline h, pre)) ∧
      strStartsWith pre ("---\ntitle: " ++ h.titleRaw) = true := by
  intro s h pre hexp hp
  constructor
  · show (stepHeadline s h).map _ = _
    unfold stepHeadline
    simp only [hexp, if_true, hp]
    cases h2 : (popCtxs h.level s.outputStack).2 with
    | nil => simp [h2, Except.map]
    | cons co rest => obtain ⟨c, out⟩ := co; simp [h2, Except.map]
  · unfold headlinePreamble at hp
    cases hm : h.properties.mapM headlinePropLine with
    | none => rw [hm] at hp; exact Option.noConfusion hp
    | some propLines =>
      rw [hm] at hp
      injection hp with hpre
      rw [← hpre]
      exact strStartsWithAppend _ _

/-- Claim C4 witness: the amended statement at the concrete export-tagged
headline of the counterexample document. -/
theorem C4_witness :
    (mdStep (mdInit "f" [] []) (Ev.enterHeadline h4)).map (fun t => t.outputStack.head?) =
      Except.ok (some (ExportContext.headline h4, "---\ntitle: Sub\n---\n\n")) ∧
    strStartsWith "---\ntitle: Sub\n---\n\n" ("---\ntitle: " ++ h4.titleRaw) = true :=
  C4_amended_anchor_heading (mdInit "f" [] []) h4 "---\ntitle: Sub\n---\n\n" (by decide) rfl

/-- Claim C5: a non-anchor headline rendered into the open context is
emitted with heading depth `min(level − anchor depth, 6)` (the anchor depth
is 0 for a File context), and the anchor of the receiving context always has
depth strictly below the headline's, so the subtraction is exact; and the
document with export-tagged sections at depths 1 < 2 < 3 (plus a
non-exported depth-4 child) yields exactly three output files, each
containing only its own subtree with headings renumbered from 1. -/
theorem C5_heading_renormalization :
    (∀ (s : MDState) (h : Headline) (c : ExportContext) (out : String)
        (rest : List (ExportContext × String)),
        h.tags.contains EXPORT_TAG = false →
        (popCtxs h.level s.outputStack).2 = (c, out) :: rest →
        s.insideBlockquote = false →
        (mdStep s (Ev.enterHeadline h)).map (fun t => t.outputStack.head?) =
          Except.ok (some (c, ensureNl out ++
            (repChar (min (h.level - ctxLevel c) 6) '#' ++ (" " ++ h.titleRaw)))) ∧
        (∀ hh, c = ExportContext.headline hh → hh.level < h.level)) ∧
    runCorpus c5docs = Except.ok [("c.org", c5cOut), ("b.org", c5bOut), ("a.org", c5aOut)] := by
  constructor
  · intro s h c out rest hexp hpop hbq
    constructor
    · show (stepHeadline s h).map _ = _
      unfold stepHeadline
      simp only [hexp, Bool.false_eq_true, if_false, hpop]
      simp only [Except.map]
      rw [hbq]
      unfold headingRender appendTextStr
      simp only [Bool.false_eq_true, if_false]
      rw [strAppendAssoc, strAppendAssoc]
      rfl
    · intro hh hch
      rcases popCtxsSndHead h.level s.outputStack c out rest hpop with hfile | ⟨hh0, hch0, hlt0⟩
      · rw [hch] at hfile
        exact ExportContext.noConfusion hfile
      · rw [hch] at hch0
        injection hch0 with hhh
        rw [hhh]
        exact hlt0
  · rfl

/-- Claim C5 witness: the renormalization formula at a concrete state with an
open depth-1 Section context receiving a depth-4 headline. -/
theorem C5_witness :
    (mdStep w5state (Ev.enterHeadline h5d)).map (fun t => t.outputStack.head?) =
      Except.ok (some (ExportContext.headline h5a, ensureNl "x\n" ++
        (repChar (min (h5d.level - ctxLevel (ExportContext.headline h5a)) 6) '#' ++
          (" " ++ h5d.titleRaw)))) :=
  (C5_heading_renormalization.1 w5state h5d (ExportContext.headline h5a) "x\n" []
    rfl rfl rfl).1

/-- Claim C7, amended: for local-file-style links the renderer strips the
file-scheme prefix for image embeds and description-less links (using the
stripped path as both target and label), but a link WITH a description is
closed with the RAW, unstripped path as its target. -/
theorem C7_amended_local_links :
    ∀ (s : MDState) (c : ExportContext) (out : String)
      (rest : List (ExportContext × String)) (l : Link),
      s.outputStack = (c, out) :: rest →
      strStartsWith l.path "id:" = false →
      (l.isImage = true →
        mdStep s (Ev.enterLink l) = Except.ok { s with outputStack :=
          (c, out ++ ("![](" ++ trimStartMatches l.path "file:" ++ ")")) :: rest }) ∧
      (l.isImage = false → l.hasDescription = false →
        mdStep s (Ev.enterLink l) = Except.ok { s with outputStack :=
          (c, out ++ ("[" ++ trimStartMatches l.path "file:" ++ "](" ++
            trimStartMatches l.path "file:" ++ ")")) :: rest }) ∧
      (l.isImage = false → l.hasDescription = true →
        mdStep s (Ev.enterLink l) = Except.ok { s with outputStack :=
          (c, out ++ "[") :: rest }) ∧
      mdStep s (Ev.leaveLink l) = Except.ok { s with outputStack :=
        (c, out ++ ("](" ++ l.path ++ ")")) :: rest } := by
  intro s c out rest l hst hid
  refine ⟨?_, ?_, ?_, ?_⟩
  · intro himg
    show stepLink s l = _
    unfold stepLink
    simp only [hst]
    unfold linkText
    simp only [hid, Bool.false_eq_true, if_false, himg, if_true]
  · intro himg hdesc
    show stepLink s l = _
    unfold stepLink
    simp only [hst]
    unfold linkText
    simp only [hid, himg, hdesc, Bool.false_eq_true, if_false, Bool.not_false, if_true]
  · intro himg hdesc
    show stepLink s l = _
    unfold stepLink
    simp only [hst]
    unfold linkText
    simp only [hid, himg, hdesc, Bool.false_eq_true, if_false, Bool.not_true]
  · show Except.ok (bufOnTop s _) = _
    unfold bufOnTop
    simp only [hst]

/-- Claim C7 witness: the image-embed case at a concrete image link inside
an open File context. -/
theorem C7_witness :
    mdStep w7state (Ev.enterLink w7img) = Except.ok { w7state with outputStack :=
      [(ExportContext.file, "" ++ ("![](" ++ trimStartMatches w7img.path "file:" ++ ")"))] } :=
  (C7_amended_local_links w7state ExportContext.file "" [] w7img rfl rfl).1 rfl

/-- Claim C8: an identifier-style link whose well-formed identifier is
absent from the id→filename table only appends a diagnostic placeholder to
the open buffer (the step succeeds, so the traversal continues), and for a
whole corpus containing such a link the run completes and writes the
enclosing output with the literal placeholder inside. -/
theorem C8_unresolved_link_resilience :
    (∀ (s : MDState) (c : ExportContext) (out : String)
        (rest : List (ExportContext × String)) (l : Link) (u : Uuid),
        s.outputStack = (c, out) :: rest →
        strStartsWith l.path "id:" = true →
        Uuid.fromStr (trimStartMatches l.path "id:") = some u →
        alookup s.nodeMap u = none →
        mdStep s (Ev.enterLink l) = Except.ok { s with outputStack :=
          (c, out ++ ("link to non-existent uuid " ++ u.val)) :: rest }) ∧
    runCorpus c8docs = Except.ok [("a8.org", c8out)] ∧
    substrStr "link to non-existent uuid " c8out = true := by
  refine ⟨?_, rfl, rfl⟩
  intro s c out rest l u hst hid hu hlk
  show stepLink s l = _
  unfold stepLink
  simp only [hst]
  unfold linkText
  simp only [hid, if_true, hu, hlk]

/-- Claim C8 witness: the placeholder emission at a concrete unresolved
identifier link inside an open File context. -/
theorem C8_witness :
    mdStep w7state (Ev.enterLink l8) = Except.ok { w7state with outputStack :=
      [(ExportContext.file, "" ++ ("link to non-existent uuid " ++ uE))] } :=
  C8_unresolved_link_resilience.1 w7state ExportContext.file "" [] l8 ⟨uE⟩ rfl rfl rfl rfl

/-- Claim C9, amended: the File context is opened ONLY by a filetags-export
keyword event (never by the identity-property drawer), and for documents in
which that keyword is unique and precedes every export-tagged headline, the
stack holds at most one File context, every non-bottom stack entry is a
Section context, and no File context reaches the finished outputs before
document end. -/
theorem C9_amended_file_context :
    (∀ (f : String) (nm : List (Uuid × String))
        (hm : List ((String × Nat × Nat) × String)) (evs pre suf : List Ev) (s2 : MDState),
        goodDocFull evs = true → evs = pre ++ suf →
        List.foldlM mdStep (mdInit f nm hm) pre = Except.ok s2 →
        List.countP (fun c => isFileCtx c) (s2.outputStack.map Prod.fst) ≤ 1 ∧
        (s2.outputStack.map Prod.fst).dropLast.all (fun c => !isFileCtx c) = true ∧
        s2.finishedOutputs.all (fun cb => !isFileCtx cb.1) = true) ∧
    (∀ (s : MDState) (e : Ev) (s2 : MDState),
        mdStep s e = Except.ok s2 →
        List.countP (fun c => isFileCtx c) (s.outputStack.map Prod.fst) <
          List.countP (fun c => isFileCtx c) (s2.outputStack.map Prod.fst) →
        isFiletagsExport e = true) := by
  constructor
  · intro f nm hm evs pre suf s2 hg he hfold
    subst he
    have hgpre : goodDocFull pre = true := goodDocFullAppendLeft pre suf hg
    obtain ⟨hwf, hfin⟩ := invFold pre (mdInit f nm hm) s2 hgpre rfl (fun _ => rfl) rfl hfold
    exact ⟨wfCount _ hwf, wfDropLast _ hwf, hfin⟩
  · intro s e s2 hok hlt
    rcases mdStepShape hok with ⟨hfe1, _, _⟩ | ⟨h, he, _, hdisj⟩ | ⟨_, hstk, _, _⟩
    · exact hfe1
    · exfalso
      have hsplit : List.countP (fun c => isFileCtx c) (s.outputStack.map Prod.fst) =
          List.countP (fun c => isFileCtx c) ((popCtxs h.level s.outputStack).1.map Prod.fst) +
          List.countP (fun c => isFileCtx c) ((popCtxs h.level s.outputStack).2.map Prod.fst) := by
        conv_lhs => rw [popCtxsAppend h.level s.outputStack]
        rw [List.map_append, List.countP_append]
      have hle : List.countP (fun c => isFileCtx c) (s2.outputStack.map Prod.fst) ≤
          List.countP (fun c => isFileCtx c) (s.outputStack.map Prod.fst) := by
        rcases hdisj with ⟨_, hstk⟩ | ⟨_, hstk⟩
        · rw [hstk, List.countP_cons, hsplit]
          simp only [isFileCtx, Bool.false_eq_true, if_false, Nat.add_zero]
          exact Nat.le_add_left _ _
        · rw [hstk, hsplit]
          exact Nat.le_add_left _ _
      exact Nat.not_lt.mpr hle hlt
    · exfalso
      rw [hstk] at hlt
      exact Nat.lt_irrefl _ hlt

/-- Claim C9 witness: the concrete good document with one filetags-export
keyword reaches a state with exactly one File context at the bottom. -/
theorem C9_witness :
    List.countP (fun c => isFileCtx c) (wFileState.outputStack.map Prod.fst) ≤ 1 ∧
    (wFileState.outputStack.map Prod.fst).dropLast.all (fun c => !isFileCtx c) = true ∧
    wFileState.finishedOutputs.all (fun cb => !isFileCtx cb.1) = true :=
  C9_amended_file_context.1 "f" [] [] wFileEvs wFileEvs [] wFileState (by decide)
    (List.append_nil wFileEvs).symm rfl

end RoamExport
